import Mathlib

/-!
Verification of the bevy_terrain streaming core against its specification.

The Rust sources are shallowly embedded: `u32` arithmetic is modelled on `Nat`
(all intermediate values of the embedded expressions stay below `2 ^ 32`, so no
wrap-around modelling is needed where noted), hash maps are modelled as
association lists, and functions whose Rust originals can panic (`unwrap`)
return `Except Unit`.
-/

/-! ## Node identity (src/data_structures/mod.rs)

The source aliases `pub type NodeId = u32;` and `pub type AttachmentIndex =
usize;`; both are embedded as plain `Nat`. -/

/-- `pub const INVALID_NODE_ID: NodeId = NodeId::MAX;` (`u32::MAX`). -/
def INVALID_NODE_ID : Nat := 2 ^ 32 - 1

/-- The global coordinate of a node (`struct NodeCoordinate`). -/
structure NodeCoordinate where
  lod : Nat
  x : Nat
  y : Nat
deriving DecidableEq

/-- `impl From<NodeId> for NodeCoordinate`: decodes an id into its coordinate.
`lod = (id >> 28) & 0xF`, `x = (id >> 14) & 0x3FFF`, `y = id & 0x3FFF`. -/
def NodeCoordinate.ofId (id : Nat) : NodeCoordinate :=
  ⟨(id >>> 28) &&& 0xF, (id >>> 14) &&& 0x3FFF, id &&& 0x3FFF⟩

/-- `pub fn calc_node_id(lod: u32, x: u32, y: u32) -> NodeId`:
`(lod & 0xF) << 28 | (x & 0x3FFF) << 14 | y & 0x3FFF`.
Every intermediate value is `< 2 ^ 32`, so the `Nat` embedding agrees with
the `u32` computation exactly. -/
def calc_node_id (lod x y : Nat) : Nat :=
  ((lod &&& 0xF) <<< 28) ||| ((x &&& 0x3FFF) <<< 14) ||| (y &&& 0x3FFF)

/-! ## Terrain pipeline key (src/render/render_pipeline.rs)

The `bitflags!`-generated type is represented by its raw `u32` bits. -/

def TerrainPipelineKey.NONE : Nat := 0

def TerrainPipelineKey.WIREFRAME : Nat := 1 <<< 0

def TerrainPipelineKey.SHOW_TILES : Nat := 1 <<< 1

def TerrainPipelineKey.SHOW_LOD : Nat := 1 <<< 2

def TerrainPipelineKey.SHOW_UV : Nat := 1 <<< 3

def TerrainPipelineKey.CIRCULAR_LOD : Nat := 1 <<< 4

def TerrainPipelineKey.MESH_MORPH : Nat := 1 <<< 5

def TerrainPipelineKey.ALBEDO : Nat := 1 <<< 6

def TerrainPipelineKey.BRIGHT : Nat := 1 <<< 7

def TerrainPipelineKey.LIGHTING : Nat := 1 <<< 8

def TerrainPipelineKey.TEST : Nat := 1 <<< 9

def TerrainPipelineKey.MSAA_MASK_BITS : Nat := 0b111111

def TerrainPipelineKey.MSAA_SHIFT_BITS : Nat := 32 - 6

def TerrainPipelineKey.MSAA_RESERVED_BITS : Nat :=
  TerrainPipelineKey.MSAA_MASK_BITS <<< TerrainPipelineKey.MSAA_SHIFT_BITS

/-- The union of all declared flag bits (`Self::all()` of the `bitflags!` type). -/
def TerrainPipelineKey.ALL_BITS : Nat :=
  TerrainPipelineKey.NONE ||| TerrainPipelineKey.WIREFRAME |||
    TerrainPipelineKey.SHOW_TILES ||| TerrainPipelineKey.SHOW_LOD |||
    TerrainPipelineKey.SHOW_UV ||| TerrainPipelineKey.CIRCULAR_LOD |||
    TerrainPipelineKey.MESH_MORPH ||| TerrainPipelineKey.ALBEDO |||
    TerrainPipelineKey.BRIGHT ||| TerrainPipelineKey.LIGHTING |||
    TerrainPipelineKey.TEST ||| TerrainPipelineKey.MSAA_RESERVED_BITS

/-- `from_bits` of the `bitflags!` type: `Some` iff no undefined bit is set. -/
def TerrainPipelineKey.from_bits (b : Nat) : Option Nat :=
  if b &&& TerrainPipelineKey.ALL_BITS = b then some b else none

/-- `TerrainPipelineKey::from_msaa_samples`; the source's `.unwrap()` is kept as
the `Option` so that its success is part of what is proved. -/
def TerrainPipelineKey.from_msaa_samples (msaa_samples : Nat) : Option Nat :=
  TerrainPipelineKey.from_bits
    (((msaa_samples - 1) &&& TerrainPipelineKey.MSAA_MASK_BITS) <<<
      TerrainPipelineKey.MSAA_SHIFT_BITS)

/-- `TerrainPipelineKey::msaa_samples`:
`((self.bits >> MSAA_SHIFT_BITS) & MSAA_MASK_BITS) + 1`. -/
def TerrainPipelineKey.msaa_samples (bits : Nat) : Nat :=
  ((bits >>> TerrainPipelineKey.MSAA_SHIFT_BITS) &&&
    TerrainPipelineKey.MSAA_MASK_BITS) + 1

/-! ## Attachment loading (src/attachment_loader.rs)

`bevy`'s `HashMap`s are modelled as association lists (first match wins),
`HandleId` and `TextureFormat` as `Nat`, and the `AssetServer` by the two
operations the loader uses. Functions whose Rust originals contain `.unwrap()`
return `Except Unit`; `.error ()` stands for the panic. -/

/-- `bevy::asset::LoadState` (external collaborator). -/
inductive LoadState
  | notLoaded
  | loading
  | loaded
  | failed
  | unloaded
deriving DecidableEq

/-- `HashMap` lookup on the association-list model. -/
def mapGet {β : Type} : List (Nat × β) → Nat → Option β
  | [], _ => none
  | (k', v) :: rest, k => if k' = k then some v else mapGet rest k

/-- `HashMap` key removal on the association-list model. -/
def mapErase {β : Type} : List (Nat × β) → Nat → List (Nat × β)
  | [], _ => []
  | (k', v) :: rest, k =>
    if k' = k then mapErase rest k else (k', v) :: mapErase rest k

/-- `HashMap` insertion on the association-list model. -/
def mapInsert {β : Type} (m : List (Nat × β)) (k : Nat) (v : β) :
    List (Nat × β) :=
  (k, v) :: mapErase m k

/-- Modelled from the spec: the per-node record owned by the `NodeAtlas`
(`node_atlas.rs` is not among the sources). Per §3 "Node record" it carries the
set of attachment indices whose load has completed (the spec's bitset) and, per
the loader's calls to `set_attachment`, the handle stored per attachment. -/
structure LoadingNode where
  loadedAttachments : List Nat
  attachmentHandles : List (Nat × Nat)
deriving DecidableEq

/-- Modelled from the spec (§4.2 `mark_attachment_loaded` on an existing
record): `LoadingNode::loaded(attachment_index)` marks one attachment of the
record as loaded. -/
def LoadingNode.loaded (n : LoadingNode) (attachment_index : Nat) :
    LoadingNode :=
  { n with loadedAttachments := attachment_index :: n.loadedAttachments }

/-- Modelled from the spec: `LoadingNode::set_attachment` stores the handle
obtained for one attachment of the record. -/
def LoadingNode.set_attachment (n : LoadingNode)
    (attachment_index handle : Nat) : LoadingNode :=
  { n with
    attachmentHandles := mapInsert n.attachmentHandles attachment_index handle }

/-- The two fields of `NodeAtlas` that `start_loading_attachment_from_disk`
destructures. Modelled from the spec §4.2 (the atlas's own file is not among
the sources): `loading_nodes` keys the records of nodes currently loading by
node id, `load_events` is the per-cycle queue of newly requested node ids. -/
structure NodeAtlas where
  loading_nodes : List (Nat × LoadingNode)
  load_events : List Nat
deriving DecidableEq

/-- `struct AttachmentFromDisk { path: String, format: TextureFormat }`. -/
structure AttachmentFromDisk where
  path : String
  format : Nat
deriving DecidableEq

/-- `struct AttachmentFromDiskLoader`: the configured attachments and the
pending handle mapping `HandleId -> (NodeId, AttachmentIndex)`. -/
structure AttachmentFromDiskLoader where
  attachments : List (Nat × AttachmentFromDisk)
  handle_mapping : List (Nat × (Nat × Nat))
deriving DecidableEq

/-- The interface of `bevy`'s `AssetServer` used by the loader: `load` returns
the handle (id) for a path, `get_load_state` reports the load state of a
handle. -/
structure AssetServer where
  load : String → Nat
  get_load_state : Nat → LoadState

/-- The path built in `start_loading_attachment_from_disk`:
`format!("{path}/{node_id}.png")`. -/
def attachment_file_path (path : String) (node_id : Nat) : String :=
  path ++ "/" ++ toString node_id ++ ".png"

/-- The handle returned by `asset_server.load(&format!("{path}/{node_id}.png"))`
for one configured attachment and one node. -/
def attachmentHandle (server : AssetServer) (att : AttachmentFromDisk)
    (node_id : Nat) : Nat :=
  server.load (attachment_file_path att.path node_id)

/-- The `texture_descriptor` fields touched by the loader. -/
structure TextureDescriptor where
  format : Nat
  usage : Nat
deriving DecidableEq

/-- `bevy`'s `Image`, reduced to the fields the loader touches. -/
structure Image where
  texture_descriptor : TextureDescriptor
deriving DecidableEq

/-- `TextureUsages::COPY_SRC` (external `wgpu` bit flag). -/
def COPY_SRC : Nat := 1

/-- `bevy::asset::AssetEvent<Image>` (external collaborator). -/
inductive AssetEvent
  | created (handle : Nat)
  | modified (handle : Nat)
  | removed (handle : Nat)
deriving DecidableEq

/-- The inner loop of `start_loading_attachment_from_disk`: for one node id
from `load_events`, iterate over the configured attachments; load the
attachment's file, mark the node loaded at once if the asset is already
`Loaded`, otherwise record the handle in the pending mapping; store the handle
on the record. Also returns the list of paths passed to `AssetServer::load`,
in order (the issued load requests). -/
def loadNodeAttachments (server : AssetServer) (node_id : Nat) :
    List (Nat × AttachmentFromDisk) → LoadingNode → List (Nat × (Nat × Nat)) →
    LoadingNode × List (Nat × (Nat × Nat)) × List String
  | [], node, handle_mapping => (node, handle_mapping, [])
  | (attachment_index, att) :: rest, node, handle_mapping =>
    let path := attachment_file_path att.path node_id
    let handle := server.load path
    let step :=
      if server.get_load_state handle = LoadState.loaded then
        (node.loaded attachment_index, handle_mapping)
      else
        (node, mapInsert handle_mapping handle (node_id, attachment_index))
    let node' := step.1.set_attachment attachment_index handle
    let result := loadNodeAttachments server node_id rest node' step.2
    (result.1, result.2.1, path :: result.2.2)

/-- The outer loop of `start_loading_attachment_from_disk` over
`load_events`. `loading_nodes.get_mut(&node_id).unwrap()` is the `.error ()`
case. -/
def startNodes (server : AssetServer)
    (attachments : List (Nat × AttachmentFromDisk)) :
    List Nat → List (Nat × LoadingNode) → List (Nat × (Nat × Nat)) →
    Except Unit
      (List (Nat × LoadingNode) × List (Nat × (Nat × Nat)) × List String)
  | [], loading_nodes, handle_mapping => .ok (loading_nodes, handle_mapping, [])
  | node_id :: rest, loading_nodes, handle_mapping =>
    match mapGet loading_nodes node_id with
    | none => .error ()
    | some node =>
      let r := loadNodeAttachments server node_id attachments node
        handle_mapping
      match startNodes server attachments rest
          (mapInsert loading_nodes node_id r.1) r.2.1 with
      | .error e => .error e
      | .ok (ln, m, t) => .ok (ln, m, r.2.2 ++ t)

/-- `start_loading_attachment_from_disk`, for one terrain of the query (the
body of the `terrain_query` loop). The extra `List String` conjunct is the
trace of paths passed to `AssetServer::load`. -/
def start_loading_attachment_from_disk (server : AssetServer)
    (node_atlas : NodeAtlas) (config : AttachmentFromDiskLoader) :
    Except Unit (NodeAtlas × AttachmentFromDiskLoader × List String) :=
  match startNodes server config.attachments node_atlas.load_events
      node_atlas.loading_nodes config.handle_mapping with
  | .error e => .error e
  | .ok (ln, m, t) =>
    .ok ({ node_atlas with loading_nodes := ln },
      { config with handle_mapping := m }, t)

/-- The terrain-query loop of `finish_loading_attachment_from_disk` for one
`AssetEvent::Created { handle }`: find the first terrain whose pending mapping
holds the handle, remove the entry, normalize the image's format, mark the
node's attachment loaded, and `break`; the three `.unwrap()`s of the source
are the `.error ()` cases. -/
def processCreated (images : List (Nat × Image)) (handle : Nat) :
    List (NodeAtlas × AttachmentFromDiskLoader) →
    Except Unit
      (List (Nat × Image) × List (NodeAtlas × AttachmentFromDiskLoader))
  | [] => .ok (images, [])
  | (node_atlas, config) :: rest =>
    match mapGet config.handle_mapping handle with
    | none =>
      match processCreated images handle rest with
      | .error e => .error e
      | .ok (images', rest') => .ok (images', (node_atlas, config) :: rest')
    | some (node_id, attachment_index) =>
      match mapGet images handle with
      | none => .error ()
      | some image =>
        match mapGet config.attachments attachment_index with
        | none => .error ()
        | some attachment =>
          let image' : Image :=
            ⟨⟨attachment.format, image.texture_descriptor.usage ||| COPY_SRC⟩⟩
          match mapGet node_atlas.loading_nodes node_id with
          | none => .error ()
          | some node =>
            .ok (mapInsert images handle image',
              ({ node_atlas with
                  loading_nodes := mapInsert node_atlas.loading_nodes node_id
                    (node.loaded attachment_index) },
                { config with
                  handle_mapping := mapErase config.handle_mapping handle })
                :: rest)

/-- One event of the `asset_events` loop of
`finish_loading_attachment_from_disk`: only `Created` events are processed. -/
def finishEvent
    (state : List (Nat × Image) × List (NodeAtlas × AttachmentFromDiskLoader))
    (event : AssetEvent) :
    Except Unit
      (List (Nat × Image) × List (NodeAtlas × AttachmentFromDiskLoader)) :=
  match event with
  | .created handle => processCreated state.1 handle state.2
  | _ => .ok state

/-- `finish_loading_attachment_from_disk`: drain the batch of asset events. -/
def finish_loading_attachment_from_disk (events : List AssetEvent)
    (state : List (Nat × Image) × List (NodeAtlas × AttachmentFromDiskLoader)) :
    Except Unit
      (List (Nat × Image) × List (NodeAtlas × AttachmentFromDiskLoader)) :=
  match events with
  | [] => .ok state
  | event :: rest =>
    match finishEvent state event with
    | .error e => .error e
    | .ok state' => finish_loading_attachment_from_disk rest state'

/-! ## Concrete states used by the closed theorems -/

/-- An image asset with format `0` and empty usage flags. -/
def plainImage : Image := ⟨⟨0, 0⟩⟩

/-- An atlas holding no node records and no pending load events. -/
def emptyAtlas : NodeAtlas := ⟨[], []⟩

/-- A loader with one configured attachment and the pending entry
`7 ↦ (node 5, attachment 0)`. -/
def staleLoader : AttachmentFromDiskLoader :=
  ⟨[(0, ⟨"height", 5⟩)], [(7, (5, 0))]⟩

/-- A loader with one configured attachment and the pending entry
`3 ↦ (node 5, attachment 0)`. -/
def unrelatedLoader : AttachmentFromDiskLoader :=
  ⟨[(0, ⟨"height", 5⟩)], [(3, (5, 0))]⟩

/-- A loader with one configured attachment and the pending entry
`9 ↦ (node 2, attachment 1)`. -/
def orphanLoader : AttachmentFromDiskLoader :=
  ⟨[(1, ⟨"albedo", 9⟩)], [(9, (2, 1))]⟩

/-! ## Theorems -/

theorem mapGet_mapErase_self {β : Type} (m : List (Nat × β)) (k : Nat) :
    mapGet (mapErase m k) k = none := by
  induction m with
  | nil => rfl
  | cons p rest ih =>
    obtain ⟨k', v⟩ := p
    by_cases h : k' = k
    · simpa [mapErase, h] using ih
    · simp [mapErase, mapGet, h, ih]

theorem mapGet_mapErase_ne {β : Type} (m : List (Nat × β)) (k k' : Nat)
    (h : k' ≠ k) :
    mapGet (mapErase m k) k' = mapGet m k' := by
  induction m with
  | nil => rfl
  | cons p rest ih =>
    obtain ⟨k0, v⟩ := p
    by_cases hk : k0 = k
    · subst hk
      simp [mapErase, mapGet, Ne.symm h, ih]
    · by_cases hk' : k0 = k'
      · subst hk'
        simp [mapErase, mapGet, hk, ih]
      · simp [mapErase, mapGet, hk, hk', ih]

theorem mapGet_mapInsert {β : Type} (m : List (Nat × β)) (k k' : Nat) (v : β) :
    mapGet (mapInsert m k v) k' = if k = k' then some v else mapGet m k' := by
  by_cases h : k = k'
  · simp [mapInsert, mapGet, h]
  · have h' : k' ≠ k := fun he => h he.symm
    simp [mapInsert, mapGet, h, mapGet_mapErase_ne m k k' h']

/-- C2: with the spec-modelled `NodeAtlas` (release removes the node record)
the loader's completion step is NOT a safe no-op when the handle is still in
the pending mapping but the node record is gone: the source's
`loading_nodes.get_mut(&node_id).unwrap()` panics (`.error ()`), contradicting
the specified silent no-op. Concretely: handle 7 is pending for node 5, the
atlas holds no record for node 5, the image for handle 7 exists, and
processing the completion aborts. -/
theorem c2_stale_completion_panics :
    mapGet staleLoader.handle_mapping 7 = some (5, 0) ∧
      mapGet emptyAtlas.loading_nodes 5 = none ∧
      finish_loading_attachment_from_disk [AssetEvent.created 7]
        ([(7, plainImage)], [(emptyAtlas, staleLoader)]) = .error () :=
  ⟨rfl, rfl, rfl⟩

theorem processCreated_absent (images : List (Nat × Image)) (handle : Nat)
    (terrains : List (NodeAtlas × AttachmentFromDiskLoader))
    (habs : ∀ t ∈ terrains, mapGet (t.2).handle_mapping handle = none) :
    processCreated images handle terrains = .ok (images, terrains) := by
  induction terrains with
  | nil => rfl
  | cons t rest ih =>
    obtain ⟨node_atlas, config⟩ := t
    have h1 : mapGet config.handle_mapping handle = none :=
      habs (node_atlas, config) (by simp)
    have h2 : ∀ t ∈ rest, mapGet (t.2).handle_mapping handle = none :=
      fun t ht => habs t (by simp [ht])
    simp [processCreated, h1, ih h2]

/-- C6: a completion notification whose handle is absent from every pending
handle mapping is silently ignored: the processing step leaves the images,
the atlases and the mappings unchanged and raises no error. -/
theorem c6_stale_handle_ignored (images : List (Nat × Image))
    (terrains : List (NodeAtlas × AttachmentFromDiskLoader)) (handle : Nat)
    (habs : ∀ t ∈ terrains, mapGet (t.2).handle_mapping handle = none) :
    finish_loading_attachment_from_disk [AssetEvent.created handle]
      (images, terrains) = .ok (images, terrains) := by
  simp [finish_loading_attachment_from_disk, finishEvent,
    processCreated_absent images handle terrains habs]

theorem c6_stale_handle_ignored_witness :
    finish_loading_attachment_from_disk [AssetEvent.created 7]
      ([], [(emptyAtlas, unrelatedLoader)]) =
      .ok ([], [(emptyAtlas, unrelatedLoader)]) :=
  c6_stale_handle_ignored [] [(emptyAtlas, unrelatedLoader)] 7 (by decide)

/-- C8: an asset event other than a successful creation (`Modified`,
`Removed`) is ignored by the completion step: the whole state is returned
unchanged and no error is raised, so no attachment is marked loaded and the
affected node stays in its previous (loading) state. -/
theorem c8_load_failure_leaves_state (state :
      List (Nat × Image) × List (NodeAtlas × AttachmentFromDiskLoader))
    (event : AssetEvent)
    (h : ∀ handle, event ≠ AssetEvent.created handle) :
    finish_loading_attachment_from_disk [event] state = .ok state := by
  cases event with
  | created handle => exact absurd rfl (h handle)
  | modified handle => rfl
  | removed handle => rfl

theorem c8_load_failure_leaves_state_witness :
    finish_loading_attachment_from_disk [AssetEvent.modified 3]
      ([(3, plainImage)], [(emptyAtlas, staleLoader)]) =
      .ok ([(3, plainImage)], [(emptyAtlas, staleLoader)]) :=
  c8_load_failure_leaves_state ([(3, plainImage)], [(emptyAtlas, staleLoader)])
    (AssetEvent.modified 3) (fun _ h => nomatch h)

/-- C7 counterexample: a completion whose handle (9) IS present in the pending
mapping does not always result in the entry being removed and the rest kept:
when the node recorded for it (node 2) has been released from the atlas,
processing panics (`.error ()`) instead of producing any updated mapping. -/
theorem c7_present_handle_counterexample :
    mapGet orphanLoader.handle_mapping 9 = some (2, 1) ∧
      finish_loading_attachment_from_disk [AssetEvent.created 9]
        ([(9, plainImage)], [(emptyAtlas, orphanLoader)]) = .error () :=
  ⟨rfl, rfl⟩

/-- C7 (amended): for a completion whose handle H is present in the pending
mapping, PROVIDED the node recorded for H is still present in `loading_nodes`
(and the image and the attachment configuration exist, as they do for a
genuine completion), processing removes exactly the entry for H: the new
mapping is the old one with H erased, every other entry is unchanged, and the
configured attachments table is unchanged. -/
theorem c7_completion_removes_exactly_handle (images : List (Nat × Image))
    (node_atlas : NodeAtlas) (config : AttachmentFromDiskLoader)
    (handle node_id attachment_index : Nat)
    (hmap : mapGet config.handle_mapping handle =
      some (node_id, attachment_index))
    (himg : (mapGet images handle).isSome = true)
    (hatt : (mapGet config.attachments attachment_index).isSome = true)
    (hnode : (mapGet node_atlas.loading_nodes node_id).isSome = true) :
    ∃ images' node_atlas' config',
      finish_loading_attachment_from_disk [AssetEvent.created handle]
        (images, [(node_atlas, config)]) =
        .ok (images', [(node_atlas', config')]) ∧
      config'.handle_mapping = mapErase config.handle_mapping handle ∧
      mapGet config'.handle_mapping handle = none ∧
      (∀ h', h' ≠ handle →
        mapGet config'.handle_mapping h' = mapGet config.handle_mapping h') ∧
      config'.attachments = config.attachments := by
  obtain ⟨image, himage⟩ := Option.isSome_iff_exists.mp himg
  obtain ⟨attachment, hattached⟩ := Option.isSome_iff_exists.mp hatt
  obtain ⟨node, hnd⟩ := Option.isSome_iff_exists.mp hnode
  refine ⟨mapInsert images handle
      ⟨⟨attachment.format, image.texture_descriptor.usage ||| COPY_SRC⟩⟩,
    { node_atlas with
      loading_nodes := mapInsert node_atlas.loading_nodes node_id
        (node.loaded attachment_index) },
    { config with handle_mapping := mapErase config.handle_mapping handle },
    ?_, rfl, mapGet_mapErase_self _ _,
    fun h' hne => mapGet_mapErase_ne _ _ _ hne, rfl⟩
  simp [finish_loading_attachment_from_disk, finishEvent, processCreated,
    hmap, himage, hattached, hnd]

theorem c7_completion_removes_exactly_handle_witness :
    ∃ images' node_atlas' config',
      finish_loading_attachment_from_disk [AssetEvent.created 7]
        ([(7, plainImage)],
          [(⟨[(5, ⟨[], []⟩)], []⟩, staleLoader)]) =
        .ok (images', [(node_atlas', config')]) ∧
      config'.handle_mapping = mapErase staleLoader.handle_mapping 7 ∧
      mapGet config'.handle_mapping 7 = none ∧
      (∀ h', h' ≠ 7 →
        mapGet config'.handle_mapping h' =
          mapGet staleLoader.handle_mapping h') ∧
      config'.attachments = staleLoader.attachments :=
  c7_completion_removes_exactly_handle [(7, plainImage)]
    ⟨[(5, ⟨[], []⟩)], []⟩ staleLoader 7 5 0 (by decide) (by decide) (by decide)
    (by decide)

theorem calc_node_id_arith (lod x y : Nat) (hl : lod < 16) (hx : x < 16384)
    (hy : y < 16384) :
    calc_node_id lod x y = 2 ^ 28 * lod + 2 ^ 14 * x + y := by
  unfold calc_node_id
  have h4 : (0xF : Nat) = 2 ^ 4 - 1 := by norm_num
  have h14 : (0x3FFF : Nat) = 2 ^ 14 - 1 := by norm_num
  have hl' : lod % 2 ^ 4 = lod := Nat.mod_eq_of_lt (by omega)
  have hx' : x % 2 ^ 14 = x := Nat.mod_eq_of_lt (by omega)
  have hy' : y % 2 ^ 14 = y := Nat.mod_eq_of_lt (by omega)
  simp only [h4, h14, Nat.and_pow_two_sub_one_eq_mod, hl', hx', hy',
    Nat.shiftLeft_eq]
  rw [Nat.mul_comm lod, Nat.mul_comm x]
  have hylt : y < 2 ^ 14 := by omega
  have hinner : 2 ^ 14 * x + y < 2 ^ 28 := by omega
  rw [Nat.or_assoc, ← Nat.mul_add_lt_is_or hylt x,
    ← Nat.mul_add_lt_is_or hinner lod]
  omega

/-- C1: for every `(lod, x, y)` with `lod < 16`, `x < 16384`, `y < 16384`,
decoding the node id produced by `calc_node_id` yields back exactly
`(lod, x, y)`: the encoding is lossless over the valid domain. -/
theorem c1_node_id_roundtrip (lod x y : Nat) (hl : lod < 16) (hx : x < 16384)
    (hy : y < 16384) :
    NodeCoordinate.ofId (calc_node_id lod x y) = ⟨lod, x, y⟩ := by
  rw [calc_node_id_arith lod x y hl hx hy]
  unfold NodeCoordinate.ofId
  have h4 : (0xF : Nat) = 2 ^ 4 - 1 := by norm_num
  have h14 : (0x3FFF : Nat) = 2 ^ 14 - 1 := by norm_num
  simp only [h4, h14, Nat.and_pow_two_sub_one_eq_mod, Nat.shiftRight_eq_div_pow,
    NodeCoordinate.mk.injEq]
  refine ⟨?_, ?_, ?_⟩ <;> omega

theorem c1_node_id_roundtrip_witness :
    NodeCoordinate.ofId (calc_node_id 3 5 7) = ⟨3, 5, 7⟩ :=
  c1_node_id_roundtrip 3 5 7 (by decide) (by decide) (by decide)

/-- C3 counterexample: `calc_node_id` does not fail on the out-of-range input
`lod = 16`; it returns the node id of the different, in-range coordinate
`(0, 0, 0)`. -/
theorem c3_out_of_range_counterexample :
    calc_node_id 16 0 0 = calc_node_id 0 0 0 ∧ (16 : Nat) ≠ 0 ∧
      NodeCoordinate.ofId (calc_node_id 16 0 0) = ⟨0, 0, 0⟩ := by
  decide

/-- C3 (amended): `calc_node_id` never fails; it masks each component to its
bit width, so an out-of-range component silently aliases the in-range
coordinate `(lod % 16, x % 16384, y % 16384)`. -/
theorem c3_calc_node_id_masks (lod x y : Nat) :
    calc_node_id lod x y = calc_node_id (lod % 16) (x % 16384) (y % 16384) := by
  unfold calc_node_id
  have h4 : (0xF : Nat) = 2 ^ 4 - 1 := by norm_num
  have h14 : (0x3FFF : Nat) = 2 ^ 14 - 1 := by norm_num
  have e1 : lod % 16 % 2 ^ 4 = lod % 2 ^ 4 := by omega
  have e2 : x % 16384 % 2 ^ 14 = x % 2 ^ 14 := by omega
  have e3 : y % 16384 % 2 ^ 14 = y % 2 ^ 14 := by omega
  simp only [h4, h14, Nat.and_pow_two_sub_one_eq_mod, e1, e2, e3]

/-- C9: the sentinel `INVALID_NODE_ID` (`u32::MAX`) coincides with the encoding
of the valid in-range coordinate `(15, 16383, 16383)`, and decoding the
sentinel yields that coordinate, so the sentinel is not distinguishable from
that valid node by the encoding alone. -/
theorem c9_invalid_id_collides_with_valid_node :
    calc_node_id 15 16383 16383 = INVALID_NODE_ID ∧
      NodeCoordinate.ofId INVALID_NODE_ID = ⟨15, 16383, 16383⟩ := by
  decide

/-- C10: the MSAA bits of the pipeline key round-trip: for every sample count
`s` with `1 ≤ s ≤ 64`, `from_msaa_samples s` succeeds (the source's
`from_bits(..).unwrap()` does not panic) and `msaa_samples` recovers `s`. -/
theorem c10_msaa_roundtrip (s : Nat) (h1 : 1 ≤ s) (h2 : s ≤ 64) :
    ∃ k, TerrainPipelineKey.from_msaa_samples s = some k ∧
      TerrainPipelineKey.msaa_samples k = s := by
  interval_cases s <;> exact ⟨_, rfl, rfl⟩

theorem c10_msaa_roundtrip_witness :
    ∃ k, TerrainPipelineKey.from_msaa_samples 4 = some k ∧
      TerrainPipelineKey.msaa_samples k = 4 :=
  c10_msaa_roundtrip 4 (by decide) (by decide)

theorem mapGet_mapInsert_isSome {β : Type} (m : List (Nat × β)) (k n : Nat)
    (v : β) (h : (mapGet m n).isSome = true) :
    (mapGet (mapInsert m k v) n).isSome = true := by
  rw [mapGet_mapInsert]
  split <;> simp [h]

theorem loadNodeAttachments_trace (server : AssetServer) (node_id : Nat)
    (atts : List (Nat × AttachmentFromDisk)) :
    ∀ (node : LoadingNode) (m : List (Nat × (Nat × Nat))),
      (loadNodeAttachments server node_id atts node m).2.2 =
        atts.map (fun p => attachment_file_path p.2.path node_id) := by
  induction atts with
  | nil => intro node m; rfl
  | cons p rest ih =>
    intro node m
    obtain ⟨i, a⟩ := p
    simp [loadNodeAttachments, ih]

theorem loadNodeAttachments_mapGet_untouched (server : AssetServer)
    (node_id h : Nat) (atts : List (Nat × AttachmentFromDisk))
    (hins : ∀ p ∈ atts, attachmentHandle server p.2 node_id ≠ h) :
    ∀ (node : LoadingNode) (m : List (Nat × (Nat × Nat))),
      mapGet (loadNodeAttachments server node_id atts node m).2.1 h =
        mapGet m h := by
  induction atts with
  | nil => intro node m; rfl
  | cons p rest ih =>
    intro node m
    obtain ⟨i, a⟩ := p
    have hh : server.load (attachment_file_path a.path node_id) ≠ h :=
      hins (i, a) (by simp)
    have ih' := ih (fun p hp => hins p (by simp [hp]))
    by_cases hl : server.get_load_state
        (server.load (attachment_file_path a.path node_id)) = LoadState.loaded
    · simp [loadNodeAttachments, hl, ih']
    · simp [loadNodeAttachments, hl, ih']
      rw [mapGet_mapInsert, if_neg hh]

theorem loadNodeAttachments_mapGet_stable (server : AssetServer)
    (node_id h : Nat) (v : Nat × Nat) (atts : List (Nat × AttachmentFromDisk))
    (hins : ∀ p ∈ atts, attachmentHandle server p.2 node_id = h →
      (node_id, p.1) = v) :
    ∀ (node : LoadingNode) (m : List (Nat × (Nat × Nat))),
      mapGet m h = some v →
      mapGet (loadNodeAttachments server node_id atts node m).2.1 h =
        some v := by
  induction atts with
  | nil => intro node m hm; exact hm
  | cons p rest ih =>
    intro node m hm
    obtain ⟨i, a⟩ := p
    have ih' := ih (fun p hp => hins p (by simp [hp]))
    by_cases hl : server.get_load_state
        (server.load (attachment_file_path a.path node_id)) = LoadState.loaded
    · simp [loadNodeAttachments, hl]
      exact ih' _ _ hm
    · simp [loadNodeAttachments, hl]
      by_cases hh : server.load (attachment_file_path a.path node_id) = h
      · refine ih' _ _ ?_
        rw [mapGet_mapInsert, if_pos hh]
        have := hins (i, a) (by simp) hh
        simpa using this
      · refine ih' _ _ ?_
        rw [mapGet_mapInsert, if_neg hh]
        exact hm

theorem loadNodeAttachments_mapGet_inserted (server : AssetServer)
    (node_id i : Nat) (a : AttachmentFromDisk)
    (atts : List (Nat × AttachmentFromDisk))
    (hl : server.get_load_state (attachmentHandle server a node_id) ≠
      LoadState.loaded) :
    ∀ (node : LoadingNode) (m : List (Nat × (Nat × Nat))),
      (i, a) ∈ atts →
      (∀ p ∈ atts, attachmentHandle server p.2 node_id =
        attachmentHandle server a node_id → p.1 = i) →
      mapGet (loadNodeAttachments server node_id atts node m).2.1
        (attachmentHandle server a node_id) = some (node_id, i) := by
  induction atts with
  | nil => intro node m hmem _; cases hmem
  | cons p rest ih =>
    intro node m hmem huniq
    obtain ⟨j, b⟩ := p
    have hrestu : ∀ p ∈ rest, attachmentHandle server p.2 node_id =
        attachmentHandle server a node_id → p.1 = i :=
      fun p hp => huniq p (by simp [hp])
    by_cases hh : server.load (attachment_file_path b.path node_id) =
        attachmentHandle server a node_id
    · have hj : j = i := huniq (j, b) (by simp) hh
      have hlb : ¬ server.get_load_state
          (server.load (attachment_file_path b.path node_id)) =
            LoadState.loaded := by
        rw [hh]; exact hl
      simp [loadNodeAttachments, hlb]
      apply loadNodeAttachments_mapGet_stable server node_id _ _ rest
        (fun p hp he => by rw [hrestu p hp he])
      rw [mapGet_mapInsert, if_pos hh, hj]
    · have hmem' : (i, a) ∈ rest := by
        rcases List.mem_cons.mp hmem with heq | hmem'
        · exfalso
          apply hh
          have hb : b = a := (Prod.mk.injEq .. ▸ heq.symm).2
          rw [hb]; rfl
        · exact hmem'
      by_cases hlb : server.get_load_state
          (server.load (attachment_file_path b.path node_id)) =
            LoadState.loaded
      · simp [loadNodeAttachments, hlb]
        exact ih _ _ hmem' hrestu
      · simp [loadNodeAttachments, hlb]
        exact ih _ _ hmem' hrestu

theorem loadNodeAttachments_mapGet_loadedState (server : AssetServer)
    (node_id h : Nat) (atts : List (Nat × AttachmentFromDisk))
    (hl : server.get_load_state h = LoadState.loaded) :
    ∀ (node : LoadingNode) (m : List (Nat × (Nat × Nat))),
      mapGet (loadNodeAttachments server node_id atts node m).2.1 h =
        mapGet m h := by
  induction atts with
  | nil => intro node m; rfl
  | cons p rest ih =>
    intro node m
    obtain ⟨i, a⟩ := p
    by_cases hlb : server.get_load_state
        (server.load (attachment_file_path a.path node_id)) = LoadState.loaded
    · simp [loadNodeAttachments, hlb, ih]
    · have hne : server.load (attachment_file_path a.path node_id) ≠ h :=
        fun he => hlb (he ▸ hl)
      simp [loadNodeAttachments, hlb, ih]
      rw [mapGet_mapInsert, if_neg hne]

theorem loadNodeAttachments_keeps_loaded (server : AssetServer)
    (node_id i : Nat) (atts : List (Nat × AttachmentFromDisk)) :
    ∀ (node : LoadingNode) (m : List (Nat × (Nat × Nat))),
      i ∈ node.loadedAttachments →
      i ∈ (loadNodeAttachments server node_id atts node m).1.loadedAttachments
    := by
  induction atts with
  | nil => intro node m h; exact h
  | cons p rest ih =>
    intro node m h
    obtain ⟨j, b⟩ := p
    by_cases hlb : server.get_load_state
        (server.load (attachment_file_path b.path node_id)) = LoadState.loaded
    · simp [loadNodeAttachments, hlb]
      exact ih _ _ (by simp [LoadingNode.loaded, LoadingNode.set_attachment, h])
    · simp [loadNodeAttachments, hlb]
      exact ih _ _ (by simp [LoadingNode.set_attachment, h])

theorem loadNodeAttachments_marks_loaded (server : AssetServer)
    (node_id i : Nat) (a : AttachmentFromDisk)
    (atts : List (Nat × AttachmentFromDisk))
    (hl : server.get_load_state (attachmentHandle server a node_id) =
      LoadState.loaded) :
    ∀ (node : LoadingNode) (m : List (Nat × (Nat × Nat))),
      (i, a) ∈ atts →
      i ∈ (loadNodeAttachments server node_id atts node m).1.loadedAttachments
    := by
  induction atts with
  | nil => intro node m hmem; cases hmem
  | cons p rest ih =>
    intro node m hmem
    obtain ⟨j, b⟩ := p
    rcases List.mem_cons.mp hmem with heq | hmem'
    · have hi : i = j := (Prod.mk.injEq .. ▸ heq).1
      have hb : a = b := (Prod.mk.injEq .. ▸ heq).2
      subst hi
      subst hb
      have hla : server.get_load_state
          (server.load (attachment_file_path a.path node_id)) =
            LoadState.loaded := hl
      simp [loadNodeAttachments, hla]
      exact loadNodeAttachments_keeps_loaded server node_id i rest _ _
        (by simp [LoadingNode.loaded, LoadingNode.set_attachment])
    · by_cases hlb : server.get_load_state
          (server.load (attachment_file_path b.path node_id)) =
            LoadState.loaded
      · simp [loadNodeAttachments, hlb]
        exact ih _ _ hmem'
      · simp [loadNodeAttachments, hlb]
        exact ih _ _ hmem'

theorem startNodes_ok (server : AssetServer)
    (atts : List (Nat × AttachmentFromDisk)) :
    ∀ (events : List Nat) (ln : List (Nat × LoadingNode))
      (m : List (Nat × (Nat × Nat))),
      (∀ n ∈ events, (mapGet ln n).isSome = true) →
      ∃ ln' m' t, startNodes server atts events ln m = .ok (ln', m', t) ∧
        t = events.flatMap
          (fun n => atts.map (fun p => attachment_file_path p.2.path n)) := by
  intro events
  induction events with
  | nil => intro ln m _; exact ⟨ln, m, [], rfl, rfl⟩
  | cons n rest ih =>
    intro ln m hnodes
    obtain ⟨node, hnode⟩ :=
      Option.isSome_iff_exists.mp (hnodes n (by simp))
    have hnodes' : ∀ n' ∈ rest, (mapGet (mapInsert ln n
        (loadNodeAttachments server n atts node m).1) n').isSome = true :=
      fun n' hn' => mapGet_mapInsert_isSome _ _ _ _ (hnodes n' (by simp [hn']))
    obtain ⟨ln', m', t, heq, ht⟩ :=
      ih (mapInsert ln n (loadNodeAttachments server n atts node m).1)
        ((loadNodeAttachments server n atts node m).2.1) hnodes'
    refine ⟨ln', m',
      (loadNodeAttachments server n atts node m).2.2 ++ t, ?_, ?_⟩
    · simp [startNodes, hnode, heq]
    · rw [loadNodeAttachments_trace, ht]
      simp [List.flatMap_cons]

theorem startNodes_mapGet_stable (server : AssetServer)
    (atts : List (Nat × AttachmentFromDisk)) (h : Nat) (v : Nat × Nat) :
    ∀ (events : List Nat) (ln : List (Nat × LoadingNode))
      (m : List (Nat × (Nat × Nat))),
      mapGet m h = some v →
      (∀ n ∈ events, ∀ p ∈ atts,
        attachmentHandle server p.2 n = h → (n, p.1) = v) →
      ∀ ln' m' t, startNodes server atts events ln m = .ok (ln', m', t) →
        mapGet m' h = some v := by
  intro events
  induction events with
  | nil =>
    intro ln m hm _ ln' m' t heq
    cases heq
    exact hm
  | cons n rest ih =>
    intro ln m hm hstab ln' m' t heq
    cases hnode : mapGet ln n with
    | none => simp [startNodes, hnode] at heq
    | some node =>
      cases hrec : startNodes server atts rest
          (mapInsert ln n (loadNodeAttachments server n atts node m).1)
          (loadNodeAttachments server n atts node m).2.1 with
      | error e => simp [startNodes, hnode, hrec] at heq
      | ok res =>
        obtain ⟨ln2, m2, t2⟩ := res
        have hm2 : m' = m2 := by
          simp [startNodes, hnode, hrec] at heq
          exact heq.2.1.symm
        subst hm2
        have hm' : mapGet (loadNodeAttachments server n atts node m).2.1 h =
            some v :=
          loadNodeAttachments_mapGet_stable server n h v atts
            (fun p hp he => hstab n (by simp) p hp he) node m hm
        exact ih _ _ hm' (fun n' hn' => hstab n' (by simp [hn'])) _ _ _ hrec

theorem startNodes_mapGet_inserted (server : AssetServer)
    (atts : List (Nat × AttachmentFromDisk)) (n i : Nat)
    (a : AttachmentFromDisk)
    (hmem : (i, a) ∈ atts)
    (hl : server.get_load_state (attachmentHandle server a n) ≠
      LoadState.loaded) :
    ∀ (events : List Nat) (ln : List (Nat × LoadingNode))
      (m : List (Nat × (Nat × Nat))),
      n ∈ events →
      (∀ n' ∈ events, ∀ p ∈ atts,
        attachmentHandle server p.2 n' = attachmentHandle server a n →
        n' = n ∧ p.1 = i) →
      ∀ ln' m' t, startNodes server atts events ln m = .ok (ln', m', t) →
        mapGet m' (attachmentHandle server a n) = some (n, i) := by
  intro events
  induction events with
  | nil => intro ln m hn _ ln' m' t _; cases hn
  | cons n0 rest ih =>
    intro ln m hn hinj ln' m' t heq
    cases hnode : mapGet ln n0 with
    | none => simp [startNodes, hnode] at heq
    | some node =>
      cases hrec : startNodes server atts rest
          (mapInsert ln n0 (loadNodeAttachments server n0 atts node m).1)
          (loadNodeAttachments server n0 atts node m).2.1 with
      | error e => simp [startNodes, hnode, hrec] at heq
      | ok res =>
        obtain ⟨ln2, m2, t2⟩ := res
        have hm2 : m' = m2 := by
          simp [startNodes, hnode, hrec] at heq
          exact heq.2.1.symm
        subst hm2
        by_cases hn0 : n0 = n
        · subst hn0
          have hm' : mapGet (loadNodeAttachments server n0 atts node m).2.1
              (attachmentHandle server a n0) = some (n0, i) :=
            loadNodeAttachments_mapGet_inserted server n0 i a atts hl node m
              hmem (fun p hp he => (hinj n0 (by simp) p hp he).2)
          exact startNodes_mapGet_stable server atts
            (attachmentHandle server a n0) (n0, i) rest _ _ hm'
            (fun n' hn' p hp he => by
              obtain ⟨he1, he2⟩ := hinj n' (by simp [hn']) p hp he
              rw [he1, he2])
            _ _ _ hrec
        · have hn' : n ∈ rest := by
            rcases List.mem_cons.mp hn with he | hmem'
            · exact absurd he.symm hn0
            · exact hmem'
          exact ih _ _ hn' (fun n' hn2 => hinj n' (by simp [hn2])) _ _ _ hrec

theorem startNodes_mapGet_loadedState (server : AssetServer)
    (atts : List (Nat × AttachmentFromDisk)) (h : Nat)
    (hl : server.get_load_state h = LoadState.loaded) :
    ∀ (events : List Nat) (ln : List (Nat × LoadingNode))
      (m : List (Nat × (Nat × Nat))),
      ∀ ln' m' t, startNodes server atts events ln m = .ok (ln', m', t) →
        mapGet m' h = mapGet m h := by
  intro events
  induction events with
  | nil =>
    intro ln m ln' m' t heq
    cases heq
    rfl
  | cons n rest ih =>
    intro ln m ln' m' t heq
    cases hnode : mapGet ln n with
    | none => simp [startNodes, hnode] at heq
    | some node =>
      cases hrec : startNodes server atts rest
          (mapInsert ln n (loadNodeAttachments server n atts node m).1)
          (loadNodeAttachments server n atts node m).2.1 with
      | error e => simp [startNodes, hnode, hrec] at heq
      | ok res =>
        obtain ⟨ln2, m2, t2⟩ := res
        have hm2 : m' = m2 := by
          simp [startNodes, hnode, hrec] at heq
          exact heq.2.1.symm
        subst hm2
        rw [ih _ _ _ _ _ hrec]
        exact loadNodeAttachments_mapGet_loadedState server n h atts hl node m

theorem startNodes_keeps_loaded (server : AssetServer)
    (atts : List (Nat × AttachmentFromDisk)) (n i : Nat) :
    ∀ (events : List Nat) (ln : List (Nat × LoadingNode))
      (m : List (Nat × (Nat × Nat))) (node : LoadingNode),
      mapGet ln n = some node → i ∈ node.loadedAttachments →
      ∀ ln' m' t, startNodes server atts events ln m = .ok (ln', m', t) →
        ∃ node', mapGet ln' n = some node' ∧ i ∈ node'.loadedAttachments := by
  intro events
  induction events with
  | nil =>
    intro ln m node hn hi ln' m' t heq
    cases heq
    exact ⟨node, hn, hi⟩
  | cons n0 rest ih =>
    intro ln m node hn hi ln' m' t heq
    cases hnode : mapGet ln n0 with
    | none => simp [startNodes, hnode] at heq
    | some node0 =>
      cases hrec : startNodes server atts rest
          (mapInsert ln n0 (loadNodeAttachments server n0 atts node0 m).1)
          (loadNodeAttachments server n0 atts node0 m).2.1 with
      | error e => simp [startNodes, hnode, hrec] at heq
      | ok res =>
        obtain ⟨ln2, m2, t2⟩ := res
        have hln2 : ln' = ln2 := by
          simp [startNodes, hnode, hrec] at heq
          exact heq.1.symm
        subst hln2
        by_cases hn0 : n0 = n
        · subst hn0
          have hnodeeq : node0 = node := by
            rw [hn] at hnode
            exact (Option.some.injEq .. ▸ hnode).symm
          subst hnodeeq
          refine ih _ _ (loadNodeAttachments server n0 atts node0 m).1 ?_ ?_
            _ _ _ hrec
          · rw [mapGet_mapInsert, if_pos rfl]
          · exact loadNodeAttachments_keeps_loaded server n0 i atts node0 m hi
        · refine ih _ _ node ?_ hi _ _ _ hrec
          rw [mapGet_mapInsert, if_neg hn0]
          exact hn

theorem startNodes_marks_loaded (server : AssetServer)
    (atts : List (Nat × AttachmentFromDisk)) (n i : Nat)
    (a : AttachmentFromDisk)
    (hmem : (i, a) ∈ atts)
    (hl : server.get_load_state (attachmentHandle server a n) =
      LoadState.loaded) :
    ∀ (events : List Nat) (ln : List (Nat × LoadingNode))
      (m : List (Nat × (Nat × Nat))),
      n ∈ events →
      ∀ ln' m' t, startNodes server atts events ln m = .ok (ln', m', t) →
        ∃ node', mapGet ln' n = some node' ∧ i ∈ node'.loadedAttachments := by
  intro events
  induction events with
  | nil => intro ln m hn ln' m' t _; cases hn
  | cons n0 rest ih =>
    intro ln m hn ln' m' t heq
    cases hnode : mapGet ln n0 with
    | none => simp [startNodes, hnode] at heq
    | some node0 =>
      cases hrec : startNodes server atts rest
          (mapInsert ln n0 (loadNodeAttachments server n0 atts node0 m).1)
          (loadNodeAttachments server n0 atts node0 m).2.1 with
      | error e => simp [startNodes, hnode, hrec] at heq
      | ok res =>
        obtain ⟨ln2, m2, t2⟩ := res
        have hln2 : ln' = ln2 := by
          simp [startNodes, hnode, hrec] at heq
          exact heq.1.symm
        subst hln2
        by_cases hn0 : n0 = n
        · subst hn0
          refine startNodes_keeps_loaded server atts n0 i rest _ _
            (loadNodeAttachments server n0 atts node0 m).1 ?_ ?_ _ _ _ hrec
          · rw [mapGet_mapInsert, if_pos rfl]
          · exact loadNodeAttachments_marks_loaded server n0 i a atts hl
              node0 m hmem
        · have hn' : n ∈ rest := by
            rcases List.mem_cons.mp hn with he | hmem'
            · exact absurd he.symm hn0
            · exact hmem'
          exact ih _ _ hn' _ _ _ hrec

/-- C4: for every node id in the atlas's per-cycle `load_events` queue and
every configured attachment, the start-loading step issues exactly one load
request, whose path is `format!("{path}/{node_id}.png")` (the trace equals, in
order, one path per event-node per attachment), and, unless the external
service reports the asset as already loaded, the returned handle is recorded
in the pending mapping as `handle ↦ (node_id, attachment_index)`. The
hypotheses: every queued node has a record in `loading_nodes` (otherwise the
source's `.unwrap()` panics), and distinct (node, attachment) pairs receive
distinct handles from the asset server. -/
theorem c4_start_loading_issues_requests (server : AssetServer)
    (node_atlas : NodeAtlas) (config : AttachmentFromDiskLoader)
    (hnodes : ∀ n ∈ node_atlas.load_events,
      (mapGet node_atlas.loading_nodes n).isSome = true)
    (hinj : ∀ n1 ∈ node_atlas.load_events, ∀ n2 ∈ node_atlas.load_events,
      ∀ p1 ∈ config.attachments, ∀ p2 ∈ config.attachments,
      attachmentHandle server p1.2 n1 = attachmentHandle server p2.2 n2 →
      n1 = n2 ∧ p1.1 = p2.1) :
    ∃ node_atlas' config' trace,
      start_loading_attachment_from_disk server node_atlas config =
        .ok (node_atlas', config', trace) ∧
      trace = node_atlas.load_events.flatMap
        (fun n => config.attachments.map
          (fun p => attachment_file_path p.2.path n)) ∧
      ∀ n ∈ node_atlas.load_events, ∀ p ∈ config.attachments,
        server.get_load_state (attachmentHandle server p.2 n) ≠
          LoadState.loaded →
        mapGet config'.handle_mapping (attachmentHandle server p.2 n) =
          some (n, p.1) := by
  obtain ⟨ln', m', t, heq, ht⟩ := startNodes_ok server config.attachments
    node_atlas.load_events node_atlas.loading_nodes config.handle_mapping
    hnodes
  refine ⟨{ node_atlas with loading_nodes := ln' },
    { config with handle_mapping := m' }, t, ?_, ht, ?_⟩
  · simp [start_loading_attachment_from_disk, heq]
  · intro n hn p hp hnl
    obtain ⟨i, a⟩ := p
    exact startNodes_mapGet_inserted server config.attachments n i a hp hnl
      node_atlas.load_events node_atlas.loading_nodes config.handle_mapping
      hn
      (fun n' hn' p' hp' he =>
        hinj n' hn' n hn p' hp' (i, a) hp he)
      _ _ _ heq

theorem c4_start_loading_issues_requests_witness :
    ∃ node_atlas' config' trace,
      start_loading_attachment_from_disk
        ⟨fun _ => 11, fun _ => LoadState.loading⟩
        ⟨[(5, ⟨[], []⟩)], [5]⟩ ⟨[(0, ⟨"height", 5⟩)], []⟩ =
        .ok (node_atlas', config', trace) ∧
      trace = [5].flatMap
        (fun n => [(0, (⟨"height", 5⟩ : AttachmentFromDisk))].map
          (fun p => attachment_file_path p.2.path n)) ∧
      ∀ n ∈ [5], ∀ p ∈ [(0, (⟨"height", 5⟩ : AttachmentFromDisk))],
        (AssetServer.mk (fun _ => 11) (fun _ => LoadState.loading)).get_load_state
          (attachmentHandle ⟨fun _ => 11, fun _ => LoadState.loading⟩ p.2 n) ≠
          LoadState.loaded →
        mapGet config'.handle_mapping
          (attachmentHandle ⟨fun _ => 11, fun _ => LoadState.loading⟩ p.2 n) =
          some (n, p.1) :=
  c4_start_loading_issues_requests ⟨fun _ => 11, fun _ => LoadState.loading⟩
    ⟨[(5, ⟨[], []⟩)], [5]⟩ ⟨[(0, ⟨"height", 5⟩)], []⟩
    (by decide)
    (by
      intro n1 h1 n2 h2 p1 hp1 p2 hp2 _
      simp only [List.mem_singleton] at h1 h2 hp1 hp2
      subst h1
      subst h2
      subst hp1
      subst hp2
      exact ⟨rfl, rfl⟩)

/-- C5: for every load request whose asset the external service reports as
already `Loaded` at issue time, the start-loading step marks that attachment
loaded on the node's record immediately, and inserts no entry for that handle
into the pending mapping (the mapping's entry for the handle is exactly what
it was before). Hypotheses: every queued node has a record in `loading_nodes`
(otherwise the source's `.unwrap()` panics), `n` is a queued node and `(i, a)`
a configured attachment whose handle is already loaded. -/
theorem c5_sync_loaded_marked_immediately (server : AssetServer)
    (node_atlas : NodeAtlas) (config : AttachmentFromDiskLoader)
    (n i : Nat) (a : AttachmentFromDisk)
    (hnodes : ∀ n' ∈ node_atlas.load_events,
      (mapGet node_atlas.loading_nodes n').isSome = true)
    (hn : n ∈ node_atlas.load_events)
    (hmem : (i, a) ∈ config.attachments)
    (hl : server.get_load_state (attachmentHandle server a n) =
      LoadState.loaded) :
    ∃ node_atlas' config' trace,
      start_loading_attachment_from_disk server node_atlas config =
        .ok (node_atlas', config', trace) ∧
      (∃ node', mapGet node_atlas'.loading_nodes n = some node' ∧
        i ∈ node'.loadedAttachments) ∧
      mapGet config'.handle_mapping (attachmentHandle server a n) =
        mapGet config.handle_mapping (attachmentHandle server a n) := by
  obtain ⟨ln', m', t, heq, _⟩ := startNodes_ok server config.attachments
    node_atlas.load_events node_atlas.loading_nodes config.handle_mapping
    hnodes
  refine ⟨{ node_atlas with loading_nodes := ln' },
    { config with handle_mapping := m' }, t, ?_, ?_, ?_⟩
  · simp [start_loading_attachment_from_disk, heq]
  · exact startNodes_marks_loaded server config.attachments n i a hmem hl
      node_atlas.load_events node_atlas.loading_nodes config.handle_mapping
      hn _ _ _ heq
  · exact startNodes_mapGet_loadedState server config.attachments
      (attachmentHandle server a n) hl node_atlas.load_events
      node_atlas.loading_nodes config.handle_mapping _ _ _ heq

theorem c5_sync_loaded_marked_immediately_witness :
    ∃ node_atlas' config' trace,
      start_loading_attachment_from_disk
        ⟨fun _ => 11, fun _ => LoadState.loaded⟩
        ⟨[(5, ⟨[], []⟩)], [5]⟩ ⟨[(0, ⟨"height", 5⟩)], []⟩ =
        .ok (node_atlas', config', trace) ∧
      (∃ node', mapGet node_atlas'.loading_nodes 5 = some node' ∧
        0 ∈ node'.loadedAttachments) ∧
      mapGet config'.handle_mapping
        (attachmentHandle ⟨fun _ => 11, fun _ => LoadState.loaded⟩
          ⟨"height", 5⟩ 5) =
        mapGet ([] : List (Nat × (Nat × Nat)))
          (attachmentHandle ⟨fun _ => 11, fun _ => LoadState.loaded⟩
            ⟨"height", 5⟩ 5) :=
  c5_sync_loaded_marked_immediately ⟨fun _ => 11, fun _ => LoadState.loaded⟩
    ⟨[(5, ⟨[], []⟩)], [5]⟩ ⟨[(0, ⟨"height", 5⟩)], []⟩ 5 0 ⟨"height", 5⟩
    (by decide) (by decide) (by decide) rfl
